import Mathlib

/-!
Verification of the FedMob mobile federated-learning client.

Shallow embedding of the weight serialization codec
(`MobileClient/src/utils/parameterSerialization.js`), the weight validator
(`MobileClient/src/federated/ModelManager.js`), the reconnecting WebSocket
transport (`MobileClient/src/federated/WebSocketClient.js`), the Flower
client event handlers (`FlowerClient`), and the local training engine
(`TrainingEngine`).  JavaScript numbers are modelled exactly by rationals,
extended with the IEEE special values `NaN` and `±Infinity` as explicit
constructors; nested weight arrays are modelled by a rose-tree type.
-/

namespace FedMob

/-- A JavaScript number: a finite value (modelled exactly as a rational),
`NaN`, `Infinity` or `-Infinity`. -/
inductive JSNum : Type where
  | num (q : ℚ)
  | nan
  | inf
  | ninf
deriving DecidableEq, Repr

/-- `typeof v === 'number'` holds for every `JSNum`; `isNaN v` holds
exactly for `nan`. -/
def JSNum.isNaNb : JSNum → Bool
  | .nan => true
  | _ => false

/-- `Number.isFinite`: true exactly on finite numeric values. -/
def JSNum.isFiniteb : JSNum → Bool
  | .num _ => true
  | _ => false

/-- A possibly nested JavaScript array of numbers, as handed to the codec
for one weight layer (`tf.Tensor.array()` output): either a bare number or
an array of such values. -/
inductive NArr : Type where
  | leaf (v : JSNum)
  | arr (items : List NArr)
deriving Repr

/-- `Array.isArray`. -/
def NArr.isArr : NArr → Bool
  | .leaf _ => false
  | .arr _ => true

mutual

/-- `ParameterSerialization.flattenWeightArray` /
`ModelManager.flattenWeightArray`: recursively push every non-array
element, in order (row-major flattening).  (The early `return weightArray`
for a non-array argument in `parameterSerialization.js` is unreachable at
its call sites, which check `Array.isArray` first; for a bare number the
recursion pushes the single value.) -/
def flattenWeightArray : NArr → List JSNum
  | .leaf v => [v]
  | .arr l => flattenList l

/-- Flattening of a list of nested arrays (the `for (const item of arr)`
loop inside `flattenRecursive`). -/
def flattenList : List NArr → List JSNum
  | [] => []
  | x :: xs => flattenWeightArray x ++ flattenList xs

end

/-- `ParameterSerialization.getArrayShape`: `[]` for a non-array;
otherwise the length, followed by the shape of the first element when that
element is itself an array. -/
def getArrayShape : NArr → List ℕ
  | .leaf _ => []
  | .arr [] => [0]
  | .arr (h :: t) =>
      (t.length + 1) :: (if h.isArr then getArrayShape h else [])

/-- `shape.reduce((a, b) => a * b, 1)`: left fold of multiplication with
initial accumulator 1. -/
def prodShape (shape : List ℕ) : ℕ :=
  shape.foldl (fun a b => a * b) 1

/-- A serialized parameter object as built by
`ParameterSerialization.serializeWeights` (fields `data`, `shape`,
`dtype`, `layerIndex`, `size`). -/
structure Param : Type where
  data : List JSNum
  shape : List ℕ
  dtype : String
  layerIndex : ℕ
  size : ℕ
deriving DecidableEq, Repr

/-- `ParameterSerialization.serializeWeights` body for one layer at index
`i`: throws (`none`) if the layer is not an array, otherwise records the
row-major flattening as `data` and the nesting lengths as `shape`. -/
def serializeLayer (i : ℕ) (w : NArr) : Option Param :=
  match w with
  | .leaf _ => none
  | .arr _ =>
      some { data := flattenWeightArray w
             shape := getArrayShape w
             dtype := "float32"
             layerIndex := i
             size := (flattenWeightArray w).length }

/-- The `weights.map((weightArray, index) => ...)` loop of
`serializeWeights`, with the running index. -/
def serializeWeightsAux (i : ℕ) : List NArr → Option (List Param)
  | [] => some []
  | w :: ws => do
      let p ← serializeLayer i w
      let ps ← serializeWeightsAux (i + 1) ws
      pure (p :: ps)

/-- `ParameterSerialization.serializeWeights`: serialize every layer;
`none` models the thrown error when some layer is not an array. -/
def serializeWeights (weights : List NArr) : Option (List Param) :=
  serializeWeightsAux 0 weights

/-- `ParameterSerialization.deserializeParameters`: returns, per layer,
the raw `data` array unchanged ("CRITICAL FIX: Return raw arrays, not
tensors").  `serializeWeights` never sets a `compressed` flag, so the
decompression branch is dead for codec-produced parameters. -/
def deserializeParameters (parameters : List Param) : List (List JSNum) :=
  parameters.map (fun p => p.data)

/-- `ParameterSerialization.validateParameters`: the per-parameter loop.
In the typed embedding `data` and `shape` are always present arrays, so
the only live check is `data.length === shape.reduce((a,b) => a*b, 1)`;
any mismatch returns `false` immediately. -/
def validateParameters : List Param → Bool
  | [] => true
  | p :: rest =>
      if p.data.length = prodShape p.shape then validateParameters rest
      else false

/-- All elements of a list of nested arrays share one given shape. -/
def shapeUniform : List NArr → Bool
  | [] => true
  | h :: t => t.all (fun x => getArrayShape x == getArrayShape h)

mutual

/-- A nested array is rectangular (non-ragged): every element is itself
rectangular and all elements at each level have the same shape.  This is
the precondition under which `getArrayShape` (which only inspects the
first element at each level) describes the whole array. -/
def isRect : NArr → Bool
  | .leaf _ => true
  | .arr l => isRectList l && shapeUniform l

/-- `isRect` for every member of a list. -/
def isRectList : List NArr → Bool
  | [] => true
  | x :: xs => isRect x && isRectList xs

end

/-- `ModelManager.validateWeights` per-layer loop, zipped against the
model's expected shapes (`modelWeights[i].shape`): checks
`Array.isArray(actualWeight)`, `expectedSize === flatWeight.length`,
`actualSize !== 0`, and that no flattened value satisfies
`typeof val !== 'number' || isNaN(val)` (in the embedding every `JSNum`
has `typeof === 'number'`, so the live check is `isNaN`). -/
def validateWeightsGo : List (List ℕ) → List NArr → Bool
  | [], [] => true
  | shape :: ss, w :: ws =>
      if !w.isArr then false
      else
        let flat := flattenWeightArray w
        if flat.length ≠ prodShape shape then false
        else if flat.length = 0 then false
        else if flat.any (fun v => v.isNaNb) then false
        else validateWeightsGo ss ws
  | _, _ => false

/-- `ModelManager.validateWeights`: rejects when the layer count differs
from the model's, then runs the per-layer checks. -/
def validateWeights (modelShapes : List (List ℕ)) (weights : List NArr) :
    Bool :=
  if weights.length ≠ modelShapes.length then false
  else validateWeightsGo modelShapes weights

/-! ### Training engine and Flower client session (claim C1) -/

/-- The mutable state of `TrainingEngine` relevant to round execution:
the `isTraining` flag, plus a ghost counter of how many times the
training loop has been entered (used to count executions). -/
structure EngineState : Type where
  isTraining : Bool
  runs : ℕ
deriving DecidableEq, Repr

/-- Entry of `TrainingEngine.trainModel`: unconditionally sets
`this.isTraining = true` and starts the epoch loop (counted by `runs`).
The method reads no guard: it never consults `isTraining` before
starting. -/
def trainModelBegin (s : EngineState) : EngineState :=
  { isTraining := true, runs := s.runs + 1 }

/-- Normal exit of `TrainingEngine.trainModel`: `this.isTraining = false`. -/
def trainModelEnd (s : EngineState) : EngineState :=
  { s with isTraining := false }

/-- A complete run of `TrainingEngine.trainModel` (entry to exit). -/
def trainModel (s : EngineState) : EngineState :=
  trainModelEnd (trainModelBegin s)

/-- The `FlowerClient` state touched by the `onTrainingStart` handler. -/
structure FLClientState : Type where
  currentRound : ℕ
  engine : EngineState
deriving DecidableEq, Repr

/-- The `wsClient.onTrainingStart` handler of
`FlowerClient.setupEventHandlers`: records `this.currentRound = round`
and invokes `this.trainingEngine.trainModel(...)` unconditionally — there
is no check of any already-training state and no `AlreadyTraining`
rejection path in the handler. -/
def onTrainingStart (round : ℕ) (s : FLClientState) : FLClientState :=
  { currentRound := round, engine := trainModel s.engine }

/-! ### WebSocket transport (claims C5, C6, C7) -/

/-- An outbound message `{type, payload}` as built by
`WebSocketClient.send`. -/
structure Message : Type where
  type : String
  payload : ℕ
deriving DecidableEq, Repr

/-- The `WebSocketClient` state: connection flag, FIFO `messageQueue`,
reconnection counter, plus a ghost log of successful `ws.send`
transmissions and a counter of transmission attempts (used to index the
failure oracle). -/
structure WSState : Type where
  isConnected : Bool
  messageQueue : List Message
  reconnectAttempts : ℕ
  transmitted : List Message
  attemptIdx : ℕ
deriving DecidableEq, Repr

/-- `WebSocketClient.send(type, payload)`: when disconnected, push the
message onto `messageQueue`; when connected, attempt `ws.send` — on the
attempts where the network oracle `fails` says the send throws, the catch
block pushes the message onto `messageQueue` instead. -/
def wsSend (fails : ℕ → Bool) (m : Message) (s : WSState) : WSState :=
  if !s.isConnected then
    { s with messageQueue := s.messageQueue ++ [m] }
  else if fails s.attemptIdx then
    { s with attemptIdx := s.attemptIdx + 1
             messageQueue := s.messageQueue ++ [m] }
  else
    { s with attemptIdx := s.attemptIdx + 1
             transmitted := s.transmitted ++ [m] }

/-- `WebSocketClient.processMessageQueue`: `while (messageQueue.length > 0
&& isConnected) { send(messageQueue.shift()) }`.  `fuel` bounds the number
of loop iterations (the JS loop is unbounded; every theorem below supplies
enough fuel for the runs it talks about). -/
def processMessageQueue (fails : ℕ → Bool) : ℕ → WSState → WSState
  | 0, s => s
  | fuel + 1, s =>
      if s.isConnected then
        match s.messageQueue with
        | [] => s
        | m :: rest =>
            processMessageQueue fails fuel
              (wsSend fails m { s with messageQueue := rest })
      else s

/-- The `ws.onopen` handler of `WebSocketClient.connect`: sets
`isConnected = true`, resets `reconnectAttempts = 0`, and immediately
calls `processMessageQueue()`. -/
def wsOnOpen (fails : ℕ → Bool) (fuel : ℕ) (s : WSState) : WSState :=
  processMessageQueue fails fuel
    { s with isConnected := true, reconnectAttempts := 0 }

/-- `WebSocketClient.attemptReconnect`: if `reconnectAttempts >=
maxReconnectAttempts` (5) do nothing; otherwise increment the counter and
schedule `connect()` after `Math.min(1000 * Math.pow(2,
reconnectAttempts), 30000)` milliseconds.  Returns the new state and the
scheduled delay (`none` when no reconnection is scheduled). -/
def attemptReconnect (s : WSState) : WSState × Option ℕ :=
  if 5 ≤ s.reconnectAttempts then (s, none)
  else
    let s' := { s with reconnectAttempts := s.reconnectAttempts + 1 }
    (s', some (min (1000 * 2 ^ s'.reconnectAttempts) 30000))

/-- The `join` message sent by `FlowerClient.sendJoin`
(`send('join', {client_id, capabilities})`). -/
def joinMessage (clientId : ℕ) : Message :=
  { type := "join", payload := clientId }

/-- `FlowerClient.connect`: awaits `wsClient.connect()` — whose `onopen`
handler has already run (draining the queue) by the time the connect
promise resolves — and only then calls `sendJoin()`. -/
def flowerConnect (fails : ℕ → Bool) (fuel clientId : ℕ) (s : WSState) :
    WSState :=
  wsSend fails (joinMessage clientId) (wsOnOpen fails fuel s)

/-! ### Epoch training loop (claim C8) -/

/-- The size `end - start` of batch `b` in `TrainingEngine.trainEpoch`:
`start = b * batchSize`, `end = Math.min(start + batchSize, numSamples)`. -/
def batchSpan (numSamples batchSize b : ℕ) : ℕ :=
  min (b * batchSize + batchSize) numSamples - b * batchSize

/-- `Math.ceil(numSamples / batchSize)` for positive `batchSize`. -/
def numBatchesOf (numSamples batchSize : ℕ) : ℕ :=
  (numSamples + batchSize - 1) / batchSize

/-- The accumulator of the batch loop in `TrainingEngine.trainEpoch`
after the first `b` batches: `(totalLoss, totalAccuracy,
processedSamples)`.  `batchResults b` is the `{loss, accuracy}` pair
returned by `trainBatch` for batch `b` (model training itself is the
pluggable external collaborator); each batch contributes
`loss * (end - start)` and `accuracy * (end - start)` and advances
`processedSamples` by `end - start`. -/
def epochAccum (batchResults : ℕ → ℚ × ℚ) (numSamples batchSize : ℕ) :
    ℕ → ℚ × ℚ × ℕ
  | 0 => (0, 0, 0)
  | b + 1 =>
      let acc := epochAccum batchResults numSamples batchSize b
      let span := batchSpan numSamples batchSize b
      (acc.1 + (batchResults b).1 * (span : ℚ),
       acc.2.1 + (batchResults b).2 * (span : ℚ),
       acc.2.2 + span)

/-- `TrainingEngine.trainEpoch`: run the batch loop over
`Math.ceil(numSamples / batchSize)` batches, then return
`{loss: totalLoss / processedSamples, accuracy: totalAccuracy /
processedSamples}`. -/
def trainEpoch (batchResults : ℕ → ℚ × ℚ) (numSamples batchSize : ℕ) :
    ℚ × ℚ :=
  let acc := epochAccum batchResults numSamples batchSize
    (numBatchesOf numSamples batchSize)
  (acc.1 / (acc.2.2 : ℚ), acc.2.1 / (acc.2.2 : ℚ))

/-! ### Base64 transport encoding (claim C9)

`weightsToBase64` computes `btoa(JSON.stringify(serializeWeights(w)))` and
`base64ToWeights` computes
`deserializeParameters(JSON.parse(atob(base64String)))`.  `btoa`/`atob`
are the platform Latin-1/base64 codecs, embedded below over byte lists;
`JSON.stringify`/`JSON.parse` are the platform JSON codec, passed in as an
abstract byte-string codec (its round-trip contract on finite numbers is a
hypothesis of the theorem). -/

/-- The base64 alphabet: sextet `n < 64` to its ASCII code
(`A-Z a-z 0-9 + /`). -/
def b64char (n : ℕ) : ℕ :=
  if n < 26 then 65 + n
  else if n < 52 then 97 + (n - 26)
  else if n < 62 then 48 + (n - 52)
  else if n = 62 then 43
  else 47

/-- Inverse of the base64 alphabet: ASCII code to sextet. -/
def b64val (c : ℕ) : ℕ :=
  if 65 ≤ c ∧ c ≤ 90 then c - 65
  else if 97 ≤ c ∧ c ≤ 122 then c - 97 + 26
  else if 48 ≤ c ∧ c ≤ 57 then c - 48 + 52
  else if c = 43 then 62
  else if c = 47 then 63
  else 0

/-- The ASCII code of the base64 padding character. -/
def b64pad : ℕ := 61

/-- `btoa`: encode a Latin-1 byte string in 3-byte groups, 4 output
characters per group, padding the final partial group with `=`. -/
def btoa : List ℕ → List ℕ
  | [] => []
  | [a] => [b64char (a / 4), b64char (a % 4 * 16), b64pad, b64pad]
  | [a, b] =>
      [b64char (a / 4), b64char (a % 4 * 16 + b / 16),
       b64char (b % 16 * 4), b64pad]
  | a :: b :: c :: rest =>
      b64char (a / 4) :: b64char (a % 4 * 16 + b / 16) ::
      b64char (b % 16 * 4 + c / 64) :: b64char (c % 64) :: btoa rest

/-- `atob`: decode 4-character groups back to 3 bytes, stopping at the
padding of the final group. -/
def atob : List ℕ → List ℕ
  | c0 :: c1 :: c2 :: c3 :: rest =>
      if c2 = b64pad then [b64val c0 * 4 + b64val c1 / 16]
      else if c3 = b64pad then
        [b64val c0 * 4 + b64val c1 / 16,
         b64val c1 % 16 * 16 + b64val c2 / 4]
      else
        (b64val c0 * 4 + b64val c1 / 16) ::
        (b64val c1 % 16 * 16 + b64val c2 / 4) ::
        (b64val c2 % 4 * 64 + b64val c3) :: atob rest
  | _ => []

/-- `ParameterSerialization.weightsToBase64`, parameterized by the
platform JSON printer: `btoa(JSON.stringify(serializeWeights(weights)))`
(`none` when serialization throws). -/
def weightsToBase64 (stringify : List Param → List ℕ)
    (weights : List NArr) : Option (List ℕ) :=
  (serializeWeights weights).map (fun ps => btoa (stringify ps))

/-- `ParameterSerialization.base64ToWeights`, parameterized by the
platform JSON parser:
`deserializeParameters(JSON.parse(atob(base64String)))` (`none` when
parsing throws). -/
def base64ToWeights (parse : List ℕ → Option (List Param))
    (base64String : List ℕ) : Option (List (List JSNum)) :=
  (parse (atob base64String)).map deserializeParameters

/-! ### Helper lemmas -/

lemma foldl_mul_shift (l : List ℕ) (a : ℕ) :
    l.foldl (fun x y => x * y) a = a * l.foldl (fun x y => x * y) 1 := by
  induction l generalizing a with
  | nil => simp
  | cons b t ih =>
      simp only [List.foldl]
      rw [ih (a * b), ih (1 * b)]
      ring

lemma prodShape_cons (n : ℕ) (l : List ℕ) :
    prodShape (n :: l) = n * prodShape l := by
  simp only [prodShape, List.foldl]
  rw [foldl_mul_shift]
  ring

lemma flattenList_length (l : List NArr) :
    (flattenList l).length =
      (l.map (fun x => (flattenWeightArray x).length)).sum := by
  induction l with
  | nil => simp [flattenList]
  | cons x xs ih => simp [flattenList, ih]

lemma sum_map_const_of {α : Type} (l : List α) (f : α → ℕ) (c : ℕ)
    (h : ∀ x ∈ l, f x = c) : (l.map f).sum = l.length * c := by
  induction l with
  | nil => simp
  | cons x xs ih =>
      simp only [List.map_cons, List.sum_cons, List.length_cons]
      rw [h x (List.mem_cons_self x xs),
        ih (fun y hy => h y (List.mem_cons_of_mem x hy))]
      ring

lemma isRectList_mem {l : List NArr} (h : isRectList l = true) :
    ∀ x ∈ l, isRect x = true := by
  induction l with
  | nil => simp
  | cons y ys ih =>
      simp only [isRectList, Bool.and_eq_true] at h
      intro x hx
      rcases List.mem_cons.mp hx with rfl | hx
      · exact h.1
      · exact ih h.2 x hx

lemma shapeUniform_mem {hd : NArr} {t : List NArr}
    (h : shapeUniform (hd :: t) = true) :
    ∀ x ∈ hd :: t, getArrayShape x = getArrayShape hd := by
  simp only [shapeUniform, List.all_eq_true, beq_iff_eq] at h
  intro x hx
  rcases List.mem_cons.mp hx with rfl | hx
  · rfl
  · exact h x hx

/-- For a rectangular nested array, the row-major flattening has exactly
`product(shape)` elements: the shape recorded by `getArrayShape`, which
only inspects the first element at each level, accounts for every value. -/
lemma flatten_length_of_isRect (a : NArr) (h : isRect a = true) :
    (flattenWeightArray a).length = prodShape (getArrayShape a) := by
  match a with
  | .leaf v => simp [flattenWeightArray, getArrayShape, prodShape]
  | .arr [] =>
      simp [flattenWeightArray, flattenList, getArrayShape, prodShape]
  | .arr (hd :: t) =>
      simp only [isRect, Bool.and_eq_true] at h
      have hrec : ∀ x ∈ hd :: t,
          (flattenWeightArray x).length = prodShape (getArrayShape x) := by
        intro x hx
        have := List.sizeOf_lt_of_mem hx
        exact flatten_length_of_isRect x (isRectList_mem h.1 x hx)
      have hshape := shapeUniform_mem h.2
      have hlen : ∀ x ∈ hd :: t,
          (flattenWeightArray x).length = prodShape (getArrayShape hd) := by
        intro x hx
        rw [hrec x hx, hshape x hx]
      have htotal : (flattenWeightArray (NArr.arr (hd :: t))).length =
          (t.length + 1) * prodShape (getArrayShape hd) := by
        show (flattenList (hd :: t)).length = _
        rw [flattenList_length, sum_map_const_of _ _ _ hlen]
        simp
      rw [htotal]
      by_cases hA : hd.isArr = true
      · simp only [getArrayShape, hA, if_true]
        rw [prodShape_cons]
      · match hd, hA with
        | .leaf v, _ =>
            simp only [getArrayShape, NArr.isArr, Bool.false_eq_true,
              if_false]
            rw [prodShape_cons]
termination_by sizeOf a
decreasing_by
  simp_wf
  have h2 := List.sizeOf_lt_of_mem hx
  simp only [List.cons.sizeOf_spec] at h2
  omega

/-- Serialization succeeds on all-array layers and produces, per layer,
`data = flattenWeightArray w` and `shape = getArrayShape w`. -/
lemma serializeWeightsAux_spec (ws : List NArr) :
    ∀ i, (∀ w ∈ ws, w.isArr = true) →
    ∃ ps, serializeWeightsAux i ws = some ps ∧
      ps.map (fun p => p.data) = ws.map flattenWeightArray ∧
      ∀ p ∈ ps, ∃ w ∈ ws,
        p.data = flattenWeightArray w ∧ p.shape = getArrayShape w := by
  induction ws with
  | nil => intro i _; exact ⟨[], rfl, rfl, by simp⟩
  | cons w ws ih =>
      intro i hall
      have hw : w.isArr = true := hall w (List.mem_cons_self w ws)
      obtain ⟨ps, hps, hdata, hmem⟩ :=
        ih (i + 1) (fun x hx => hall x (List.mem_cons_of_mem w hx))
      match w, hw with
      | .arr l, _ =>
          refine ⟨{ data := flattenWeightArray (NArr.arr l)
                    shape := getArrayShape (NArr.arr l)
                    dtype := "float32"
                    layerIndex := i
                    size := (flattenWeightArray (NArr.arr l)).length } :: ps,
            ?_, ?_, ?_⟩
          · simp [serializeWeightsAux, serializeLayer, hps]
          · simpa using hdata
          · intro p hp
            rcases List.mem_cons.mp hp with rfl | hp
            · exact ⟨NArr.arr l, List.mem_cons_self _ _, rfl, rfl⟩
            · obtain ⟨w', hw', h1, h2⟩ := hmem p hp
              exact ⟨w', List.mem_cons_of_mem _ hw', h1, h2⟩

/-! ### Claim theorems -/

/-- `validateParameters` accepts exactly the lists in which every layer
satisfies the length/shape-product check. -/
lemma validateParameters_iff (ps : List Param) :
    validateParameters ps = true ↔
      ∀ p ∈ ps, p.data.length = prodShape p.shape := by
  induction ps with
  | nil => simp [validateParameters]
  | cons p rest ih =>
      simp only [validateParameters]
      by_cases h : p.data.length = prodShape p.shape
      · simp [h, ih]
      · simp only [if_neg h]
        constructor
        · intro hfalse; cases hfalse
        · intro hall
          exact absurd (hall p (List.mem_cons_self p rest)) h

/-- C3: `validateParameters` returns `true` exactly when every parameter
has `data.length` equal to the product of its `shape` entries (computed as
`shape.reduce((a,b) => a*b, 1)`), and returns `false` as soon as any
layer violates it. -/
theorem C3_validateParameters_length_check (ps : List Param) :
    validateParameters ps = true ↔
      ∀ p ∈ ps, p.data.length = prodShape p.shape :=
  validateParameters_iff ps

/-- C10: on a weight set whose layers are rectangular (non-ragged)
arrays, `serializeWeights` succeeds and every produced parameter satisfies
`data.length = product(shape)`, hence `validateParameters` accepts the
output. -/
theorem C10_serialize_validates (W : List NArr)
    (hW : ∀ w ∈ W, w.isArr = true ∧ isRect w = true) :
    ∃ ps, serializeWeights W = some ps ∧
      (∀ p ∈ ps, p.data.length = prodShape p.shape) ∧
      validateParameters ps = true := by
  obtain ⟨ps, hps, _, hmem⟩ :=
    serializeWeightsAux_spec W 0 (fun w hw => (hW w hw).1)
  refine ⟨ps, hps, ?_, ?_⟩
  · intro p hp
    obtain ⟨w, hw, h1, h2⟩ := hmem p hp
    rw [h1, h2]
    exact flatten_length_of_isRect w (hW w hw).2
  · rw [validateParameters_iff]
    intro p hp
    obtain ⟨w, hw, h1, h2⟩ := hmem p hp
    rw [h1, h2]
    exact flatten_length_of_isRect w (hW w hw).2

/-- Witness for C10: a weight set with a rank-1 bias layer and a
rectangular 2×2 kernel layer serializes successfully and the output
passes `validateParameters`. -/
theorem C10_serialize_validates_witness :
    (∀ w ∈ [NArr.arr [NArr.leaf (JSNum.num 1), NArr.leaf (JSNum.num 2)],
            NArr.arr [NArr.arr [NArr.leaf (JSNum.num 3),
                                NArr.leaf (JSNum.num 4)],
                      NArr.arr [NArr.leaf (JSNum.num 5),
                                NArr.leaf (JSNum.num 6)]]],
        w.isArr = true ∧ isRect w = true) ∧
    ∃ ps, serializeWeights
        [NArr.arr [NArr.leaf (JSNum.num 1), NArr.leaf (JSNum.num 2)],
         NArr.arr [NArr.arr [NArr.leaf (JSNum.num 3),
                             NArr.leaf (JSNum.num 4)],
                   NArr.arr [NArr.leaf (JSNum.num 5),
                             NArr.leaf (JSNum.num 6)]]] = some ps ∧
      (∀ p ∈ ps, p.data.length = prodShape p.shape) ∧
      validateParameters ps = true :=
  ⟨by decide, C10_serialize_validates _ (by decide)⟩

/-- C2: serialize/deserialize round trip.  For every weight set whose
layers are arrays, `deserializeParameters (serializeWeights W)` yields,
layer by layer, exactly the numeric values of the original weight array in
row-major order (`flattenWeightArray`): the values pass through both
directions unchanged (the embedding carries them exactly, so in
particular equality holds within float32 precision), for tensors of any
rank including the 1×1 edge case.  (`deserializeParameters` returns the
row-major value sequence — the raw `data` array — per layer; tensor
re-nesting is delegated to the `ModelManager`, per the comment in the
source.) -/
theorem C2_roundtrip_values (W : List NArr)
    (hW : ∀ w ∈ W, w.isArr = true) :
    ∃ ps, serializeWeights W = some ps ∧
      deserializeParameters ps = W.map flattenWeightArray := by
  obtain ⟨ps, hps, hdata, _⟩ := serializeWeightsAux_spec W 0 hW
  exact ⟨ps, hps, hdata⟩

/-- Witness for C2: a rank-1 layer, a 2×1 rank-2 layer and a 1×1 layer
round-trip to their exact row-major value sequences. -/
theorem C2_roundtrip_values_witness :
    (∀ w ∈ [NArr.arr [NArr.leaf (JSNum.num 1), NArr.leaf (JSNum.num 2)],
            NArr.arr [NArr.arr [NArr.leaf (JSNum.num 3)],
                      NArr.arr [NArr.leaf (JSNum.num 4)]],
            NArr.arr [NArr.arr [NArr.leaf (JSNum.num 5)]]],
        w.isArr = true) ∧
    ∃ ps, serializeWeights
        [NArr.arr [NArr.leaf (JSNum.num 1), NArr.leaf (JSNum.num 2)],
         NArr.arr [NArr.arr [NArr.leaf (JSNum.num 3)],
                   NArr.arr [NArr.leaf (JSNum.num 4)]],
         NArr.arr [NArr.arr [NArr.leaf (JSNum.num 5)]]] = some ps ∧
      deserializeParameters ps =
        [[JSNum.num 1, JSNum.num 2], [JSNum.num 3, JSNum.num 4],
         [JSNum.num 5]] := by
  refine ⟨by decide, ?_⟩
  obtain ⟨ps, h1, h2⟩ := C2_roundtrip_values
    [NArr.arr [NArr.leaf (JSNum.num 1), NArr.leaf (JSNum.num 2)],
     NArr.arr [NArr.arr [NArr.leaf (JSNum.num 3)],
               NArr.arr [NArr.leaf (JSNum.num 4)]],
     NArr.arr [NArr.arr [NArr.leaf (JSNum.num 5)]]] (by decide)
  exact ⟨ps, h1, by rw [h2]; decide⟩

/-- `validateWeightsGo` returns `false` whenever some layer's flattened
data contains `NaN`: each earlier check in the per-layer `if` chain also
returns `false`, and a layer that reaches the value check fails
`flat.some(val => isNaN(val))`. -/
lemma validateWeightsGo_rejects_nan :
    ∀ (ss : List (List ℕ)) (ws : List NArr),
      (∃ w ∈ ws, JSNum.nan ∈ flattenWeightArray w) →
      validateWeightsGo ss ws = false := by
  intro ss
  induction ss with
  | nil =>
      intro ws hw
      obtain ⟨w, hw, _⟩ := hw
      match ws, hw with
      | w :: rest, _ => rfl
  | cons shape ss ih =>
      intro ws hw
      obtain ⟨w, hmem, hnan⟩ := hw
      match ws, hmem with
      | w' :: rest, hmem =>
          simp only [validateWeightsGo]
          rcases List.mem_cons.mp hmem with rfl | hmem
          · split_ifs with h1 h2 h3 h4
            · rfl
            · rfl
            · rfl
            · rfl
            · exfalso
              apply h4
              rw [List.any_eq_true]
              exact ⟨JSNum.nan, hnan, rfl⟩
          · split_ifs
            · rfl
            · rfl
            · rfl
            · rfl
            · exact ih rest ⟨w, hmem, hnan⟩

/-- C4 (amended): `ModelManager.validateWeights` returns `false` whenever
some layer's flattened data contains `NaN` (its value check is
`typeof val !== 'number' || isNaN(val)`), for any expected model shapes.
`Infinity`, however, passes both validators, and
`ParameterSerialization.validateParameters` performs no value check at
all — see the counterexample. -/
theorem C4_validateWeights_rejects_nan (modelShapes : List (List ℕ))
    (ws : List NArr)
    (h : ∃ w ∈ ws, JSNum.nan ∈ flattenWeightArray w) :
    validateWeights modelShapes ws = false := by
  unfold validateWeights
  split_ifs with hlen
  · rfl
  · exact validateWeightsGo_rejects_nan modelShapes ws h

/-- Witness for C4 (amended): a 2-element layer containing `NaN` is
rejected by `validateWeights` even though its length matches the model
shape. -/
theorem C4_validateWeights_rejects_nan_witness :
    validateWeights [[2]]
      [NArr.arr [NArr.leaf JSNum.nan, NArr.leaf (JSNum.num 1)]] = false :=
  C4_validateWeights_rejects_nan [[2]]
    [NArr.arr [NArr.leaf JSNum.nan, NArr.leaf (JSNum.num 1)]]
    ⟨NArr.arr [NArr.leaf JSNum.nan, NArr.leaf (JSNum.num 1)],
     List.mem_cons_self _ _, by decide⟩

/-- Counterexample to C4 as stated: `validateParameters` accepts a
parameter list whose data contains `NaN` (it checks only lengths and
shapes, never value finiteness), and `validateWeights` accepts a layer
containing `Infinity` (its check `isNaN(val)` is false on `Infinity`).
So "the validation function returns false for every list containing NaN
or Infinity" fails on the code. -/
theorem C4_counterexample :
    validateParameters
        [{ data := [JSNum.nan], shape := [1], dtype := "float32",
           layerIndex := 0, size := 1 }] = true ∧
    validateWeights [[1]] [NArr.arr [NArr.leaf JSNum.inf]] = true := by
  decide

/-- C1 (amended): the `onTrainingStart` handler contains no
already-training guard: every `start_training` instruction unconditionally
executes the training loop once more, whatever the current engine state
(in particular even while `isTraining` is `true`), so two `start_training`
instructions without an intervening `round_complete` produce exactly two
training runs, with no `AlreadyTraining` rejection path. -/
theorem C1_no_already_training_guard (s : FLClientState) (r₁ r₂ : ℕ) :
    (onTrainingStart r₂ (onTrainingStart r₁ s)).engine.runs =
      s.engine.runs + 2 ∧
    (∀ e : EngineState, (trainModelBegin e).runs = e.runs + 1) := by
  constructor
  · simp [onTrainingStart, trainModel, trainModelBegin, trainModelEnd]
  · intro e
    simp [trainModelBegin]

/-- Counterexample to C1 as stated: from a fresh client session, two
`start_training` instructions (rounds 1 and 2) with no intervening
`round_complete` result in two executions of the training loop, not one;
moreover a `trainModel` entry that begins while a previous entry is still
in flight (`isTraining = true`) is not rejected: it starts a second run.
No `AlreadyTraining` error exists anywhere on these paths. -/
theorem C1_counterexample :
    (onTrainingStart 2 (onTrainingStart 1
        { currentRound := 0,
          engine := { isTraining := false, runs := 0 } })).engine.runs
      = 2 ∧
    (trainModelBegin { isTraining := false, runs := 0 }).isTraining
      = true ∧
    (trainModelBegin
        (trainModelBegin { isTraining := false, runs := 0 })).runs = 2 := by
  decide

/-- `processMessageQueue` never touches `reconnectAttempts`. -/
lemma processMessageQueue_reconnectAttempts (fails : ℕ → Bool) :
    ∀ (fuel : ℕ) (s : WSState),
      (processMessageQueue fails fuel s).reconnectAttempts =
        s.reconnectAttempts := by
  intro fuel
  induction fuel with
  | zero => intro s; rfl
  | succ n ih =>
      intro s
      simp only [processMessageQueue]
      split
      · match hq : s.messageQueue with
        | [] => simp
        | m :: rest =>
            simp only
            rw [ih]
            simp [wsSend]
            split_ifs <;> rfl
      · rfl

/-- C7: exponential backoff of `WebSocketClient.attemptReconnect`.
While fewer than 5 attempts have been made, scheduling the `k`-th
reconnection attempt (the incremented counter value) uses delay
`min(1000 · 2^k, 30000)` ms; every scheduled delay is at most the 30000 ms
cap; once 5 attempts have been made no further reconnection is scheduled;
and the `onopen` handler of a successful connection resets the attempt
counter to zero. -/
theorem C7_backoff_bounds (s : WSState) :
    (s.reconnectAttempts < 5 →
      attemptReconnect s =
        ({ s with reconnectAttempts := s.reconnectAttempts + 1 },
         some (min (1000 * 2 ^ (s.reconnectAttempts + 1)) 30000))) ∧
    (∀ s' d, attemptReconnect s = (s', some d) → d ≤ 30000) ∧
    (5 ≤ s.reconnectAttempts → (attemptReconnect s).2 = none) ∧
    (∀ fails fuel, (wsOnOpen fails fuel s).reconnectAttempts = 0) := by
  refine ⟨?_, ?_, ?_, ?_⟩
  · intro h
    simp [attemptReconnect, Nat.not_le.mpr h]
  · intro s' d h
    unfold attemptReconnect at h
    split_ifs at h
    · simp at h
    · simp only [Prod.mk.injEq, Option.some.injEq] at h
      rw [← h.2]
      exact min_le_right _ _
  · intro h
    simp [attemptReconnect, h]
  · intro fails fuel
    rw [wsOnOpen, processMessageQueue_reconnectAttempts]

/-- Witness for C7: with 2 attempts already made, the 3rd attempt is
scheduled after `min(1000 · 2³, 30000) = 8000` ms; with 5 attempts made,
nothing is scheduled; `onopen` resets the counter of a state with 4
attempts to zero. -/
theorem C7_backoff_bounds_witness :
    attemptReconnect
        { isConnected := false, messageQueue := [], reconnectAttempts := 2,
          transmitted := [], attemptIdx := 0 } =
      ({ isConnected := false, messageQueue := [], reconnectAttempts := 3,
         transmitted := [], attemptIdx := 0 }, some 8000) ∧
    (attemptReconnect
        { isConnected := false, messageQueue := [], reconnectAttempts := 5,
          transmitted := [], attemptIdx := 0 }).2 = none ∧
    (wsOnOpen (fun _ => false) 0
        { isConnected := false, messageQueue := [], reconnectAttempts := 4,
          transmitted := [], attemptIdx := 0 }).reconnectAttempts = 0 := by
  refine ⟨?_, ?_, ?_⟩
  · have h := (C7_backoff_bounds
      { isConnected := false, messageQueue := [], reconnectAttempts := 2,
        transmitted := [], attemptIdx := 0 }).1 (by decide)
    simpa using h
  · exact (C7_backoff_bounds _).2.2.1 (by decide)
  · exact (C7_backoff_bounds _).2.2.2 (fun _ => false) 0

/-- Flushing a connected state whose queue is `q`, with no transmission
failure, transmits exactly `q` in order and empties the queue (given fuel
at least `q.length`, the number of iterations the JS `while` loop makes). -/
lemma processQueue_ok (q : List Message) :
    ∀ (t : WSState) (fuel : ℕ), t.isConnected = true →
      t.messageQueue = q → q.length ≤ fuel →
      processMessageQueue (fun _ => false) fuel t =
        { t with messageQueue := [], transmitted := t.transmitted ++ q,
                 attemptIdx := t.attemptIdx + q.length } := by
  induction q with
  | nil =>
      intro t fuel hc hq _
      obtain ⟨c, mq, ra, tr, ai⟩ := t
      simp only at hc hq
      subst hc hq
      match fuel with
      | 0 => simp [processMessageQueue]
      | n + 1 => simp [processMessageQueue]
  | cons m q ih =>
      intro t fuel hc hq hfuel
      obtain ⟨c, mq, ra, tr, ai⟩ := t
      simp only at hc hq
      subst hc hq
      match fuel, hfuel with
      | n + 1, hfuel =>
          simp only [processMessageQueue, if_true]
          rw [show (wsSend (fun _ => false) m
              { isConnected := true, messageQueue := q,
                reconnectAttempts := ra, transmitted := tr,
                attemptIdx := ai }) =
              { isConnected := true, messageQueue := q,
                reconnectAttempts := ra, transmitted := tr ++ [m],
                attemptIdx := ai + 1 } from by simp [wsSend]]
          rw [ih _ n rfl rfl (by simpa using hfuel)]
          simp [Nat.add_comm, Nat.add_assoc, Nat.add_left_comm]

/-- C5 (amended): messages sent while disconnected are appended to the
queue in call order, and once connected the queue is flushed strictly in
FIFO order provided no transmission attempt fails during the flush: the
`i`-th queued message is the `i`-th transmitted.  (When an attempt fails
mid-flush the failed message is re-appended at the tail of the queue and
is transmitted after later messages — see the counterexample.) -/
theorem C5_fifo_flush (fails : ℕ → Bool) (msgs : List Message)
    (s t : WSState) (hs : s.isConnected = false)
    (ht : t.isConnected = true) (fuel : ℕ)
    (hfuel : t.messageQueue.length ≤ fuel) :
    (msgs.foldl (fun st m => wsSend fails m st) s).messageQueue =
      s.messageQueue ++ msgs ∧
    processMessageQueue (fun _ => false) fuel t =
      { t with messageQueue := [],
               transmitted := t.transmitted ++ t.messageQueue,
               attemptIdx := t.attemptIdx + t.messageQueue.length } := by
  constructor
  · induction msgs generalizing s with
    | nil => simp
    | cons m ms ih =>
        have hsend : wsSend fails m s =
            { s with messageQueue := s.messageQueue ++ [m] } := by
          simp [wsSend, hs]
        have hc : (wsSend fails m s).isConnected = false := by
          rw [hsend]; exact hs
        simp only [List.foldl_cons]
        rw [ih _ hc, hsend]
        simp
  · exact processQueue_ok t.messageQueue t fuel ht rfl hfuel

/-- Witness for C5 (amended): two messages sent while disconnected are
queued in call order, and a failure-free flush of a two-message queue
transmits them in FIFO order. -/
theorem C5_fifo_flush_witness :
    ([{ type := "a", payload := 1 }, { type := "b", payload := 2 }].foldl
        (fun st m => wsSend (fun _ => false) m st)
        { isConnected := false, messageQueue := [], reconnectAttempts := 0,
          transmitted := [], attemptIdx := 0 }).messageQueue =
      [{ type := "a", payload := 1 }, { type := "b", payload := 2 }] ∧
    processMessageQueue (fun _ => false) 2
        { isConnected := true,
          messageQueue := [{ type := "a", payload := 1 },
                           { type := "b", payload := 2 }],
          reconnectAttempts := 0, transmitted := [], attemptIdx := 0 } =
      { isConnected := true, messageQueue := [],
        transmitted := [{ type := "a", payload := 1 },
                        { type := "b", payload := 2 }],
        reconnectAttempts := 0, attemptIdx := 2 } := by
  have h := C5_fifo_flush (fun _ => false)
    [{ type := "a", payload := 1 }, { type := "b", payload := 2 }]
    { isConnected := false, messageQueue := [], reconnectAttempts := 0,
      transmitted := [], attemptIdx := 0 }
    { isConnected := true,
      messageQueue := [{ type := "a", payload := 1 },
                       { type := "b", payload := 2 }],
      reconnectAttempts := 0, transmitted := [], attemptIdx := 0 }
    rfl rfl 2 (by decide)
  exact ⟨by simpa using h.1, by simpa using h.2⟩

/-- Counterexample to C5 as stated: with two queued messages `a` then `b`,
if the transmission attempt for `a` fails during the flush, the catch
block re-appends `a` at the tail of the queue, so the flush transmits
`b` first and `a` second — the first message enqueued is not the first
transmitted.  The claim's "including the case where a transmission attempt
fails during the flush" therefore fails on the code. -/
theorem C5_counterexample :
    (processMessageQueue (fun i => i == 0) 3
        { isConnected := true,
          messageQueue := [{ type := "a", payload := 1 },
                           { type := "b", payload := 2 }],
          reconnectAttempts := 0, transmitted := [],
          attemptIdx := 0 }).transmitted =
      [{ type := "b", payload := 2 }, { type := "a", payload := 1 }] ∧
    (processMessageQueue (fun i => i == 0) 3
        { isConnected := true,
          messageQueue := [{ type := "a", payload := 1 },
                           { type := "b", payload := 2 }],
          reconnectAttempts := 0, transmitted := [],
          attemptIdx := 0 }).transmitted ≠
      [{ type := "a", payload := 1 }, { type := "b", payload := 2 }] := by
  decide

/-- C6 (amended): the outbound queue is drained as soon as the connection
opens, *before* the `join` registration message is sent: after
`FlowerClient.connect` (WebSocket `onopen` — which flushes the queue —
followed by `sendJoin`), the transmission log is the queued messages in
order followed by the `join` message. -/
theorem C6_drain_precedes_registration (cid : ℕ) (s : WSState) :
    (flowerConnect (fun _ => false) s.messageQueue.length cid s).transmitted
      = s.transmitted ++ s.messageQueue ++ [joinMessage cid] := by
  unfold flowerConnect wsOnOpen
  rw [processQueue_ok s.messageQueue
    { s with isConnected := true, reconnectAttempts := 0 }
    s.messageQueue.length rfl rfl (le_refl _)]
  simp [wsSend]

/-- Counterexample to C6 as stated: a message queued while disconnected is
transmitted by the `onopen` flush before the `join` registration message
— the transmission log after connect is `[queued, join]`, so a queued
message *is* transmitted between the connection opening and the
registration handshake completing. -/
theorem C6_counterexample :
    (flowerConnect (fun _ => false) 1 7
        { isConnected := false,
          messageQueue := [{ type := "queued", payload := 0 }],
          reconnectAttempts := 0, transmitted := [],
          attemptIdx := 0 }).transmitted =
      [{ type := "queued", payload := 0 }, joinMessage 7] ∧
    ({ type := "queued", payload := 0 } : Message) ≠ joinMessage 7 := by
  decide

/-- The running `processedSamples` after `k` batches is `min(k·batchSize,
numSamples)`: each batch advances by `end - start`. -/
lemma epochAccum_processed (f : ℕ → ℚ × ℚ) (ns bs : ℕ) :
    ∀ k, (epochAccum f ns bs k).2.2 = min (k * bs) ns := by
  intro k
  induction k with
  | zero => simp [epochAccum]
  | succ b ih =>
      simp only [epochAccum]
      rw [ih, Nat.succ_mul]
      unfold batchSpan
      omega

/-- The running `totalLoss` after `k` batches is the weighted sum
`∑ loss_b · size_b`. -/
lemma epochAccum_loss (f : ℕ → ℚ × ℚ) (ns bs : ℕ) :
    ∀ k, (epochAccum f ns bs k).1 =
      ∑ b in Finset.range k, (f b).1 * (batchSpan ns bs b : ℚ) := by
  intro k
  induction k with
  | zero => simp [epochAccum]
  | succ b ih =>
      simp only [epochAccum]
      rw [Finset.sum_range_succ, ih]

/-- The running `totalAccuracy` after `k` batches is the weighted sum
`∑ accuracy_b · size_b`. -/
lemma epochAccum_acc (f : ℕ → ℚ × ℚ) (ns bs : ℕ) :
    ∀ k, (epochAccum f ns bs k).2.1 =
      ∑ b in Finset.range k, (f b).2 * (batchSpan ns bs b : ℚ) := by
  intro k
  induction k with
  | zero => simp [epochAccum]
  | succ b ih =>
      simp only [epochAccum]
      rw [Finset.sum_range_succ, ih]

/-- `Math.ceil(numSamples / batchSize)` batches cover all samples. -/
lemma numBatches_covers (ns bs : ℕ) (hbs : 0 < bs) :
    ns ≤ numBatchesOf ns bs * bs := by
  unfold numBatchesOf
  have h := Nat.div_add_mod (ns + bs - 1) bs
  have h2 : (ns + bs - 1) % bs < bs := Nat.mod_lt _ hbs
  rw [Nat.mul_comm]
  generalize bs * ((ns + bs - 1) / bs) = t at h
  omega

/-- C8: per-epoch loss and accuracy are sample-count-weighted averages
across batches: `trainEpoch` returns the sum over batches of
`batchResult · batchSize` divided by the total number of processed
samples (which equals `numSamples`), not the plain mean of the per-batch
values.  The witness instantiates the spec's example: batches of sizes 3
and 1 with losses 0 and 4 give epoch loss 1, not 2. -/
theorem C8_weighted_epoch_metrics (f : ℕ → ℚ × ℚ) (ns bs : ℕ)
    (hbs : 0 < bs) :
    trainEpoch f ns bs =
      ((∑ b in Finset.range (numBatchesOf ns bs),
          (f b).1 * (batchSpan ns bs b : ℚ)) / (ns : ℚ),
       (∑ b in Finset.range (numBatchesOf ns bs),
          (f b).2 * (batchSpan ns bs b : ℚ)) / (ns : ℚ)) := by
  have hp := epochAccum_processed f ns bs (numBatchesOf ns bs)
  have hmin : min (numBatchesOf ns bs * bs) ns = ns :=
    min_eq_right (numBatches_covers ns bs hbs)
  simp only [trainEpoch]
  rw [epochAccum_loss, epochAccum_acc, hp, hmin]

/-- Witness for C8, the spec's own example: 4 samples, batch size 3
(batches of sizes 3 and 1), batch losses 0 and 4: the size-weighted epoch
loss is `(0·3 + 4·1)/4 = 1`, not the naive batch average 2. -/
theorem C8_weighted_epoch_metrics_witness :
    trainEpoch (fun b => if b = 0 then ((0 : ℚ), (1 : ℚ))
        else ((4 : ℚ), (1 : ℚ))) 4 3 =
      ((∑ b in Finset.range (numBatchesOf 4 3),
          ((fun b => if b = 0 then ((0 : ℚ), (1 : ℚ))
            else ((4 : ℚ), (1 : ℚ))) b).1 * (batchSpan 4 3 b : ℚ)) / (4 : ℚ),
       (∑ b in Finset.range (numBatchesOf 4 3),
          ((fun b => if b = 0 then ((0 : ℚ), (1 : ℚ))
            else ((4 : ℚ), (1 : ℚ))) b).2 * (batchSpan 4 3 b : ℚ)) / (4 : ℚ)) ∧
    trainEpoch (fun b => if b = 0 then ((0 : ℚ), (1 : ℚ))
        else ((4 : ℚ), (1 : ℚ))) 4 3 = (1, 1) := by
  constructor
  · exact C8_weighted_epoch_metrics _ 4 3 (by decide)
  · norm_num [trainEpoch, epochAccum, batchSpan, numBatchesOf]

/-- The base64 alphabet inverts its encoding on every sextet. -/
lemma b64val_b64char : ∀ n < 64, b64val (b64char n) = n := by decide

/-- No base64 alphabet character is the padding character `=`. -/
lemma b64char_ne_pad : ∀ n < 64, b64char n ≠ b64pad := by decide

/-- `atob` inverts `btoa` on every Latin-1 byte string. -/
theorem atob_btoa (s : List ℕ) (h : ∀ b ∈ s, b < 256) :
    atob (btoa s) = s := by
  match s with
  | [] => rfl
  | [a] =>
      have ha : a < 256 := h a (by simp)
      simp only [btoa, atob, if_true]
      rw [b64val_b64char (a / 4) (by omega),
        b64val_b64char (a % 4 * 16) (by omega)]
      simp only [List.cons.injEq, and_true]
      omega
  | [a, b] =>
      have ha : a < 256 := h a (by simp)
      have hb : b < 256 := h b (by simp)
      simp only [btoa, atob]
      rw [if_neg (b64char_ne_pad (b % 16 * 4) (by omega))]
      simp only [if_true]
      rw [b64val_b64char (a / 4) (by omega),
        b64val_b64char (a % 4 * 16 + b / 16) (by omega),
        b64val_b64char (b % 16 * 4) (by omega)]
      simp only [List.cons.injEq, and_true]
      constructor <;> omega
  | a :: b :: c :: rest =>
      have ha : a < 256 := h a (by simp)
      have hb : b < 256 := h b (by simp)
      have hc : c < 256 := h c (by simp)
      have ih := atob_btoa rest
        (fun x hx => h x (by simp at hx ⊢; tauto))
      simp only [btoa, atob]
      rw [if_neg (b64char_ne_pad (b % 16 * 4 + c / 64) (by omega)),
        if_neg (b64char_ne_pad (c % 64) (by omega))]
      rw [b64val_b64char (a / 4) (by omega),
        b64val_b64char (a % 4 * 16 + b / 16) (by omega),
        b64val_b64char (b % 16 * 4 + c / 64) (by omega),
        b64val_b64char (c % 64) (by omega)]
      rw [ih]
      simp only [List.cons.injEq]
      refine ⟨by omega, by omega, by omega, trivial⟩

/-- C9: the base64 transport encoding is the identity composed with
serialize/deserialize.  For every weight set accepted by
`serializeWeights`, and any platform JSON codec that is byte-valued and
round-trips the serialized parameter list (the contract of
`JSON.stringify`/`JSON.parse` on finite values),
`base64ToWeights (weightsToBase64 W)` equals
`deserializeParameters (serializeWeights W)`: the `btoa`/`atob` layer
changes nothing. -/
theorem C9_base64_transport_identity (stringify : List Param → List ℕ)
    (parse : List ℕ → Option (List Param)) (W : List NArr)
    (hcodec : ∀ ps, serializeWeights W = some ps →
      (∀ b ∈ stringify ps, b < 256) ∧ parse (stringify ps) = some ps) :
    (weightsToBase64 stringify W).bind (base64ToWeights parse) =
      (serializeWeights W).map deserializeParameters := by
  cases hW : serializeWeights W with
  | none => simp [weightsToBase64, hW]
  | some ps =>
      obtain ⟨hb, hp⟩ := hcodec ps hW
      simp [weightsToBase64, hW, base64ToWeights, atob_btoa _ hb, hp]

/-- Witness for C9: a one-layer weight set with a concrete JSON codec
(serializing the parameter list to the byte string `[42]`): encoding to
base64 and decoding back yields exactly `deserializeParameters` of
`serializeWeights`. -/
theorem C9_base64_transport_identity_witness :
    (weightsToBase64 (fun _ => [42]) [NArr.arr [NArr.leaf (JSNum.num 1)]]).bind
        (base64ToWeights (fun bs =>
          if bs = [42] then
            some [{ data := [JSNum.num 1], shape := [1], dtype := "float32",
                    layerIndex := 0, size := 1 }]
          else none)) =
      (serializeWeights [NArr.arr [NArr.leaf (JSNum.num 1)]]).map
        deserializeParameters := by
  apply C9_base64_transport_identity
  intro ps hps
  have hval : serializeWeights [NArr.arr [NArr.leaf (JSNum.num 1)]] =
      some [{ data := [JSNum.num 1], shape := [1], dtype := "float32",
              layerIndex := 0, size := 1 }] := by decide
  rw [hval] at hps
  have hps0 := Option.some.inj hps
  subst hps0
  exact ⟨by decide, by decide⟩

end FedMob
